import Mathlib

/-! Verification development for the condition-monitoring scoreboard dashboard
(`app.py`).  The data-cleaning, scoring, filtering, aggregation, per-date
trend selection and latest-per-equipment selection steps of `main` are
embedded as executable Lean definitions; the numbered theorems at the end
settle the specification claims against them.
-/

namespace Scoreboard

/-- A raw spreadsheet cell as delivered by the ingestion layer: a numeric
value (modelled as a rational), a text value, or an empty/NaN cell. -/
inductive Cell where
  | num (q : ℚ)
  | str (s : String)
  | empty
deriving DecidableEq, Repr

/-- A `pd.Timestamp`: calendar day plus time-of-day.  `day` is the value of
`.dt.date`; two records on the same calendar day may carry different
`time` components, in which case they are distinct `DATE` values. -/
structure Timestamp where
  day : Nat
  time : Nat
deriving DecidableEq, Repr

/-- Timestamp comparison, lexicographic on (day, time) as for `pd.Timestamp`. -/
def tsLe (a b : Timestamp) : Prop :=
  a.day < b.day ∨ (a.day = b.day ∧ a.time ≤ b.time)

instance (a b : Timestamp) : Decidable (tsLe a b) :=
  inferInstanceAs (Decidable (a.day < b.day ∨ (a.day = b.day ∧ a.time ≤ b.time)))

/-- Whitespace test used by `.strip()`. -/
def isSpaceChar (c : Char) : Bool :=
  c == ' ' || c == '\t' || c == '\n' || c == '\r'

/-- Model of `.strip()` at character-list level: drop leading and trailing
whitespace. -/
def trimChars (l : List Char) : List Char :=
  ((l.dropWhile isSpaceChar).reverse.dropWhile isSpaceChar).reverse

/-- Uppercase one ASCII character (`.upper()`). -/
def upChar (c : Char) : Char :=
  if 'a' ≤ c ∧ c ≤ 'z' then Char.ofNat (c.toNat - 32) else c

/-- Lowercase one ASCII character (`.lower()`). -/
def lowChar (c : Char) : Char :=
  if 'A' ≤ c ∧ c ≤ 'Z' then Char.ofNat (c.toNat + 32) else c

/-- Value of a digit list read in base 10. -/
def digitsToNat (l : List Char) : Nat :=
  l.foldl (fun n c => n * 10 + (c.toNat - 48)) 0

/-- Whether every character is a decimal digit. -/
def allDigits (l : List Char) : Bool :=
  l.all Char.isDigit

/-- Unsigned decimal numeral, optionally with a fractional part.  Models the
plain decimal forms accepted by `pd.to_numeric` (scientific notation is not
needed by any claim and is omitted). -/
def parseUnsigned (cs : List Char) : Option ℚ :=
  match cs.span Char.isDigit with
  | (intPart, rest) =>
    match rest with
    | [] => if intPart.isEmpty then none else some (mkRat (digitsToNat intPart) 1)
    | c :: frac =>
      if c == '.' && allDigits frac && (!intPart.isEmpty || !frac.isEmpty) then
        some (mkRat (digitsToNat intPart * 10 ^ frac.length + digitsToNat frac) (10 ^ frac.length))
      else none

/-- Signed decimal numeral. -/
def parseNumChars : List Char → Option ℚ
  | [] => none
  | c :: rest =>
    if c == '-' then (parseUnsigned rest).map (fun q => mkRat (-q.num) q.den)
    else if c == '+' then parseUnsigned rest
    else parseUnsigned (c :: rest)

/-- Effect of `pd.to_numeric(x, errors="coerce")` on one cell: numbers pass through,
numeric strings are parsed (surrounding whitespace tolerated), anything
else becomes NaN (`none`).  It never raises. -/
def toNumeric : Cell → Option ℚ
  | .num q => some q
  | .str s => parseNumChars (trimChars s.data)
  | .empty => none

/-- Conversion `float → int` as performed by `.astype(int)` (numpy C cast):
truncation toward zero: the truncating quotient of numerator by
denominator. -/
def truncInt (q : ℚ) : Int :=
  q.num.tdiv (q.den : Int)

/-- The score-column treatment of `app.py` lines 79, 87, 88, 91 restricted
to one cell: `pd.to_numeric(..., errors="coerce")`, drop NaN (`dropna`),
`.astype(int)` truncation, and the `isin([1, 2, 3])` row filter.  A cell
that does not end up exactly at 1, 2 or 3 yields `none` (row dropped). -/
def codeCoerceScore (c : Cell) : Option Int :=
  match toNumeric c with
  | none => none
  | some q =>
    if truncInt q = 1 ∨ truncInt q = 2 ∨ truncInt q = 3 then some (truncInt q) else none

/-- Cleaning `str.strip().str.upper()` applied to the categorical columns
(`app.py` lines 83-85). -/
def strClean (s : String) : String :=
  ⟨(trimChars s.data).map upChar⟩

/-- One raw row after ingestion, before cleaning.  `date` holds the result
of `pd.to_datetime(..., errors="coerce")` (`none` = NaT); the score cell is
the raw `CONDITION MONITORING SCORE` value; the four component inspection
cells are carried unparsed. -/
structure RawRow where
  area : Option String
  system : Option String
  equip : Option String
  date : Option Timestamp
  score : Cell
  vibration : Cell
  oil_analysis : Cell
  temperature : Cell
  other_inspection : Cell
deriving DecidableEq, Repr

/-- A cleaned record as it exists in `df` after `app.py` line 91: key
fields non-null, score an integer in {1,2,3}, component cells passthrough. -/
structure Record where
  area : String
  system : String
  equip : String
  date : Timestamp
  score : Int
  vibration : Cell
  oil_analysis : Cell
  temperature : Cell
  other_inspection : Cell
deriving DecidableEq, Repr

/-- Replace the four component cells of a raw row, leaving everything else. -/
def setComponents (r : RawRow) (v o t x : Cell) : RawRow :=
  ⟨r.area, r.system, r.equip, r.date, r.score, v, o, t, x⟩

/-- Replace the four component cells of a cleaned record. -/
def recSetComponents (r : Record) (v o t x : Cell) : Record :=
  ⟨r.area, r.system, r.equip, r.date, r.score, v, o, t, x⟩

/-- Row-wise effect of `app.py` lines 79-91: strip/uppercase the
categorical fields, coerce the score column, drop the row (`none`) when
any of AREA, SYSTEM, EQUIPMENT DESCRIPTION, DATE is null or the coerced
score is not in {1,2,3}. -/
def cleanRow (r : RawRow) : Option Record :=
  match r.area, r.system, r.equip, r.date, codeCoerceScore r.score with
  | some a, some s, some e, some d, some v =>
    some ⟨strClean a, strClean s, strClean e, d, v,
      r.vibration, r.oil_analysis, r.temperature, r.other_inspection⟩
  | _, _, _, _, _ => none

/-- The cleaning stage applied to a whole table body. -/
def cleanRows (l : List RawRow) : List Record :=
  l.filterMap cleanRow

/-- An ingested table: the set of column names actually present, plus the
rows.  Fields of absent columns are simply never read. -/
structure Table where
  cols : List String
  rows : List RawRow

/-- The required columns named by the specification. -/
def requiredCols : List String :=
  ["AREA", "SYSTEM", "EQUIPMENT DESCRIPTION", "DATE", "CONDITION MONITORING SCORE",
   "VIBRATION", "OIL ANALYSIS", "TEMPERATURE", "OTHER INSPECTION"]

/-- Column-name normalisation of `app.py` line 73: `col.strip().upper()`. -/
def normCols (cols : List String) : List String :=
  cols.map strClean

/-- The ingest-and-clean pipeline of `app.py` lines 73-91 at table level.
Only `CONDITION MONITORING SCORE` is explicitly checked (lines 74-76, a
surfaced error).  A missing DATE column makes line 80 fail with an
unhandled KeyError, and a missing AREA / SYSTEM / EQUIPMENT DESCRIPTION
column makes the `dropna` on line 87 fail likewise; both failures happen
after score coercion (line 79) has already run.  The four component
columns are never consulted before the detail view, so their absence is
not detected: cleaning, scoring and aggregation proceed normally. -/
def pipeline (t : Table) : Except String (List Record) :=
  let cols := normCols t.cols
  if "CONDITION MONITORING SCORE" ∉ cols then
    .error "Error: CONDITION MONITORING SCORE column not found."
  else if "DATE" ∉ cols then
    .error "KeyError: DATE"
  else if "AREA" ∉ cols ∨ "SYSTEM" ∉ cols ∨ "EQUIPMENT DESCRIPTION" ∉ cols then
    .error "KeyError: dropna subset"
  else
    .ok (cleanRows t.rows)

/-- Function `map_status` from `app.py` lines 13-21. -/
def map_status (score : Int) : String :=
  if score = 1 then "Need Action"
  else if score = 2 then "Caution"
  else if score = 3 then "Okay"
  else "UNKNOWN"

/-- The date-range mask of `app.py` line 98: inclusive on both ends and
compared on `.dt.date`, i.e. on the day component only. -/
def dateFilter (l : List Record) (d1 d2 : Nat) : List Record :=
  l.filter (fun r => decide (d1 ≤ r.date.day ∧ r.date.day ≤ d2))

/-- The categorical mask of `app.py` line 181: keep one SYSTEM. -/
def systemFilter (l : List Record) (s : String) : List Record :=
  l.filter (fun r => decide (r.system = s))

/-- The categorical mask of `app.py` line 219: keep one EQUIPMENT DESCRIPTION. -/
def equipFilter (l : List Record) (e : String) : List Record :=
  l.filter (fun r => decide (r.equip = e))

/-- Minimum of a list of integers, `none` on the empty list; the `min`
skipped over an empty group, as `groupby(...).min()` produces no row for
an empty group. -/
def minList : List Int → Option Int
  | [] => none
  | x :: xs =>
    match minList xs with
    | none => some x
    | some m => some (min x m)

/-- Aggregation `groupby(["AREA", "SYSTEM"])["SCORE"].min()` of `app.py` line 107,
read off at one (area, system) key. -/
def systemScore (l : List Record) (a s : String) : Option Int :=
  minList ((l.filter (fun r => decide (r.area = a ∧ r.system = s))).map Record.score)

/-- The SYSTEM values grouped under one AREA in the `system_scores` table. -/
def areaSystems (l : List Record) (a : String) : List String :=
  ((l.filter (fun r => decide (r.area = a))).map Record.system).dedup

/-- Aggregation `system_scores.groupby("AREA")["SCORE"].min()` of `app.py` line 108,
read off at one AREA key: the minimum of that area's per-system minima. -/
def areaScore (l : List Record) (a : String) : Option Int :=
  minList ((areaSystems l a).filterMap (fun s => systemScore l a s))

/-- The distinct (AREA, SYSTEM) keys of the `system_scores` table. -/
def groupPairs (l : List Record) : List (String × String) :=
  (l.map (fun r => (r.area, r.system))).dedup

/-- The `system_scores` aggregate table of `app.py` line 107 (one row per
distinct (AREA, SYSTEM) pair; pandas orders rows by key, which no claim
depends on). -/
def systemTable (l : List Record) : List (String × String × Int) :=
  (groupPairs l).filterMap (fun p => (systemScore l p.1 p.2).map (fun m => (p.1, p.2, m)))

/-- The `area_scores` aggregate table of `app.py` line 108. -/
def areaTable (l : List Record) : List (String × Int) :=
  ((l.map Record.area).dedup).filterMap (fun a => (areaScore l a).map (fun m => (a, m)))

/-- Terminal states of one dashboard recomputation. -/
inductive Output where
  | crash
  | noData
  | aggregates (systemScores : List (String × String × Int)) (areaScores : List (String × Int))
deriving DecidableEq, Repr

/-- Lines 95-108 of `app.py` for a two-date range selection: on an entirely
empty cleaned dataset line 95 takes `min`/`max` of an empty DATE column
and the date picker cannot be built (modelled as `crash`); an empty
date-filtered set is caught at lines 102-104 and reported as no-data
before any aggregation; otherwise the two aggregate tables are built. -/
def dashboard (l : List Record) (d1 d2 : Nat) : Output :=
  if l.isEmpty then .crash
  else
    let f := dateFilter l d1 d2
    if f.isEmpty then .noData
    else .aggregates (systemTable f) (areaTable f)

/-- Pandas `Series.idxmin` applied to the SCORE of a group (`app.py` line 222),
materialised as the selected row: the first row of the group, in input
order, attaining the minimal score (`≤` keeps the earlier row on ties,
matching idxmin returning the first occurrence of the minimum). -/
def idxminScore : List Record → Option Record
  | [] => none
  | r :: rs =>
    match idxminScore rs with
    | none => some r
    | some b => if r.score ≤ b.score then some r else some b

/-- Record ordering by ascending DATE timestamp. -/
def recLe (a b : Record) : Prop := tsLe a.date b.date

/-- Record ordering by descending DATE timestamp. -/
def recGe (a b : Record) : Prop := tsLe b.date a.date

instance (a b : Record) : Decidable (recLe a b) := inferInstanceAs (Decidable (tsLe a.date b.date))

instance (a b : Record) : Decidable (recGe a b) := inferInstanceAs (Decidable (tsLe b.date a.date))

/-- Timestamp ordering as a relation on timestamps for sorting key lists. -/
instance : IsTotal Timestamp tsLe :=
  ⟨fun a b => by unfold tsLe; omega⟩

instance : IsTrans Timestamp tsLe :=
  ⟨fun a b c h1 h2 => by unfold tsLe at h1 h2 ⊢; omega⟩

instance : IsTotal Record recLe :=
  ⟨fun a b => IsTotal.total (r := tsLe) a.date b.date⟩

instance : IsTrans Record recLe :=
  ⟨fun a b c h1 h2 => IsTrans.trans (r := tsLe) a.date b.date c.date h1 h2⟩

instance : IsTotal Record recGe :=
  ⟨fun a b => IsTotal.total (r := tsLe) b.date a.date⟩

instance : IsTrans Record recGe :=
  ⟨fun a b c h1 h2 => IsTrans.trans (r := tsLe) c.date b.date a.date h2 h1⟩

/-- The groupby keys of `app.py` line 222: the distinct DATE timestamps of
the group frame, in ascending order (pandas sorts group keys). -/
def trendDates (l : List Record) : List Timestamp :=
  List.insertionSort tsLe ((l.map Record.date).dedup)

/-- The frame `df_equip.loc[idx]` of `app.py` lines 222-224: one row per distinct
DATE timestamp, each the first-in-input-order minimal-score row of its
timestamp group, ordered by ascending timestamp. -/
def trendAgg (l : List Record) : List Record :=
  (trendDates l).filterMap (fun t => idxminScore (l.filter (fun r => decide (r.date = t))))

/-- The click drill-down of `app.py` lines 219-243: restrict to one
equipment, build the per-timestamp trend table, then take the first
aggregated row whose normalised date equals the clicked calendar day
(`.dt.normalize() == clicked_date` followed by `.iloc[0]`). -/
def trendLookup (l : List Record) (e : String) (d : Nat) : Option Record :=
  (trendAgg (equipFilter l e)).find? (fun r => decide (r.date.day = d))

/-- Pandas `drop_duplicates(subset=["EQUIPMENT DESCRIPTION"], keep="first")`:
keep the first row for each equipment key not yet seen. -/
def dedupBy : List Record → List String → List Record
  | [], _ => []
  | r :: rs, seen =>
    if r.equip ∈ seen then dedupBy rs seen
    else r :: dedupBy rs (r.equip :: seen)

/-- The equipment detail table of `app.py` lines 181-182: filter to the
selected system, sort by DATE descending, keep the first row per
equipment description. -/
def detailView (l : List Record) (s : String) : List Record :=
  dedupBy (List.insertionSort recGe (systemFilter l s)) []

/-- The frame `latest_for_pie` of `app.py` line 120: sort by DATE ascending and take
the last row per equipment group (`groupby(...).last()`; pandas takes the
last non-null value per column, which coincides with the last row here
because the columns the pie consumes, AREA and EQUIP_STATUS, are non-null
in every cleaned record).  The last row of the ascending sort is the first
row of its reverse, which is sorted descending. -/
def latestForPie (l : List Record) : List Record :=
  dedupBy (List.insertionSort recLe l).reverse []

/-- Round to the nearest integer, halves rounding up:
`⌊q + 1/2⌋ = ⌊(2 num + den) / (2 den)⌋`, computed with integer floor
division. -/
def roundQ (q : ℚ) : Int :=
  (2 * q.num + q.den).fdiv (2 * q.den)

/-- Written from the specification text for the Score Coercer (spec 4.1),
for comparison with the code embedding `codeCoerceScore`: missing/empty
maps to unknown (`none`); a numeric value is rounded to the nearest
integer and clamped into [1,3]; otherwise a case-insensitive trimmed match
against the fixed label table; otherwise unknown. -/
def coerceSpec : Cell → Option Int
  | .empty => none
  | .num q => some (max 1 (min 3 (roundQ q)))
  | .str s =>
    let t : String := ⟨(trimChars s.data).map lowChar⟩
    match parseNumChars t.data with
    | some q => some (max 1 (min 3 (roundQ q)))
    | none =>
      if t ∈ ["3", "good", "normal", "ok", "green", "pass", "low risk", "baik"] then some 3
      else if t ∈ ["2", "fair", "medium", "moderate", "yellow", "alert", "cukup"] then some 2
      else if t ∈ ["1", "bad", "poor", "fail", "red", "critical", "buruk", "need action", "action"] then some 1
      else none

/-- Written from the specification text for the Row Scorer (spec 4.3), for
comparison with the code embedding: coerce the four component fields,
take the minimum of the non-unknown values, and only when all four are
unknown fall back to coercing the overall condition-monitoring score. -/
def rowScorerSpec (r : RawRow) : Option Int :=
  let comps := ([r.vibration, r.oil_analysis, r.temperature, r.other_inspection]).filterMap coerceSpec
  match minList comps with
  | some m => some m
  | none => coerceSpec r.score

/-! Concrete sample data used by counterexamples and witnesses. -/

/-- A raw row whose VIBRATION cell reads "green" while the overall
condition-monitoring score cell is the number 1. -/
def rowVibGreen : RawRow :=
  ⟨some "A", some "S", some "E", some ⟨3, 0⟩, Cell.num 1,
   Cell.str "green", Cell.empty, Cell.empty, Cell.empty⟩

/-- A raw row with all four component cells empty and overall score 2. -/
def rowFallback : RawRow :=
  ⟨some "A", some "S", some "E", some ⟨3, 0⟩, Cell.num 2,
   Cell.empty, Cell.empty, Cell.empty, Cell.empty⟩

/-- A raw row whose overall score cell is the number 0. -/
def rowZero : RawRow :=
  ⟨some "A", some "S", some "E", some ⟨3, 0⟩, Cell.num 0,
   Cell.empty, Cell.empty, Cell.empty, Cell.empty⟩

/-- A raw row whose overall score cell is the number 4.9. -/
def rowFourNine : RawRow :=
  ⟨some "A", some "S", some "E", some ⟨3, 0⟩, Cell.num (mkRat 49 10),
   Cell.empty, Cell.empty, Cell.empty, Cell.empty⟩

/-- A raw row whose overall score cell is the text "green". -/
def rowGreenText : RawRow :=
  ⟨some "A", some "S", some "E", some ⟨3, 0⟩, Cell.str "green",
   Cell.empty, Cell.empty, Cell.empty, Cell.empty⟩

/-- A cleaned record at day 5, 08:00, score 2 (Caution). -/
def recMorning : Record :=
  ⟨"A", "S", "E", ⟨5, 8⟩, 2, Cell.empty, Cell.empty, Cell.empty, Cell.empty⟩

/-- A cleaned record for the same equipment at day 5, 14:00, score 1
(Need Action). -/
def recAfternoon : Record :=
  ⟨"A", "S", "E", ⟨5, 14⟩, 1, Cell.empty, Cell.empty, Cell.empty, Cell.empty⟩

/-- A cleaned record at day 7, 09:00, score 2. -/
def recSevenCaution : Record :=
  ⟨"A", "S", "E", ⟨7, 9⟩, 2, Cell.empty, Cell.empty, Cell.empty, Cell.empty⟩

/-- A second cleaned record for the same equipment with the identical
day-7, 09:00 timestamp, score 1. -/
def recSevenWorst : Record :=
  ⟨"A", "S", "E", ⟨7, 9⟩, 1, Cell.empty, Cell.empty, Cell.empty, Cell.empty⟩

/-- A third record with the same timestamp and the same minimal score 1,
to exercise the idxmin tie-break. -/
def recSevenWorstDup : Record :=
  ⟨"A", "S", "E", ⟨7, 9⟩, 1, Cell.str "later duplicate", Cell.empty, Cell.empty, Cell.empty⟩

/-- Record in area A, system S1, day 1, score 1. -/
def recS1Bad : Record :=
  ⟨"A", "S1", "E1", ⟨1, 0⟩, 1, Cell.empty, Cell.empty, Cell.empty, Cell.empty⟩

/-- Record in area A, system S2, day 2, score 3. -/
def recS2Good : Record :=
  ⟨"A", "S2", "E2", ⟨2, 0⟩, 3, Cell.empty, Cell.empty, Cell.empty, Cell.empty⟩

/-- An early record for equipment E1 with a bad score. -/
def recEarlyBad : Record :=
  ⟨"A", "S1", "E1", ⟨1, 0⟩, 1, Cell.empty, Cell.empty, Cell.empty, Cell.empty⟩

/-- A later record for equipment E1 with a good score: the latest-status
views must pick this one, not the worst one. -/
def recLateGood : Record :=
  ⟨"A", "S1", "E1", ⟨9, 0⟩, 3, Cell.empty, Cell.empty, Cell.empty, Cell.empty⟩

/-- The cleaned record produced from `rowFallback`. -/
def recFallbackClean : Record :=
  ⟨"A", "S", "E", ⟨3, 0⟩, 2, Cell.empty, Cell.empty, Cell.empty, Cell.empty⟩

/-- A table carrying every required column except VIBRATION. -/
def tblNoVib : Table :=
  ⟨["AREA", "SYSTEM", "EQUIPMENT DESCRIPTION", "DATE", "CONDITION MONITORING SCORE",
    "OIL ANALYSIS", "TEMPERATURE", "OTHER INSPECTION"], [rowFallback]⟩

/-- A table missing the CONDITION MONITORING SCORE column. -/
def tblNoCms : Table :=
  ⟨["AREA", "SYSTEM", "EQUIPMENT DESCRIPTION", "DATE"], [rowFallback]⟩

/-- A table carrying every required column. -/
def tblFull : Table :=
  ⟨requiredCols, [rowFallback]⟩

/-! Helper lemmas about `minList`. -/

theorem minList_eq_none {l : List Int} : minList l = none ↔ l = [] := by
  cases l with
  | nil => simp [minList]
  | cons x xs => cases h : minList xs <;> simp [minList, h]

theorem minList_mem : ∀ {l : List Int} {m : Int}, minList l = some m → m ∈ l := by
  intro l
  induction l with
  | nil => intro m h; simp [minList] at h
  | cons x xs ih =>
    intro m h
    cases hx : minList xs with
    | none =>
      rw [minList, hx] at h
      simp only [Option.some.injEq] at h
      simp [← h]
    | some k =>
      rw [minList, hx] at h
      simp only [Option.some.injEq] at h
      rcases le_total x k with hle | hle
      · have hm : m = x := by rw [← h, min_eq_left hle]
        simp [hm]
      · have hm : m = k := by rw [← h, min_eq_right hle]
        exact hm ▸ List.mem_cons_of_mem x (ih hx)

theorem minList_le : ∀ {l : List Int} {m : Int}, minList l = some m → ∀ x ∈ l, m ≤ x := by
  intro l
  induction l with
  | nil => intro m h; simp [minList] at h
  | cons x xs ih =>
    intro m h y hy
    cases hx : minList xs with
    | none =>
      have hxs : xs = [] := minList_eq_none.mp hx
      subst hxs
      simp only [minList, Option.some.injEq] at h
      have hyx : y = x := List.mem_singleton.mp hy
      omega
    | some k =>
      rw [minList, hx] at h
      simp only [Option.some.injEq] at h
      rcases List.mem_cons.mp hy with hyx | hmem
      · rw [hyx, ← h]; exact min_le_left x k
      · calc m ≤ k := by rw [← h]; exact min_le_right x k
          _ ≤ y := ih hx y hmem

theorem minList_isSome {l : List Int} (h : l ≠ []) : ∃ m, minList l = some m := by
  cases hm : minList l with
  | none => exact absurd (minList_eq_none.mp hm) h
  | some k => exact ⟨k, rfl⟩

theorem minList_eq_some_iff {l : List Int} {m : Int} :
    minList l = some m ↔ m ∈ l ∧ ∀ x ∈ l, m ≤ x := by
  constructor
  · intro h
    exact ⟨minList_mem h, minList_le h⟩
  · rintro ⟨hm, hle⟩
    obtain ⟨k, hk⟩ := minList_isSome (List.ne_nil_of_mem hm)
    have h1 : k ≤ m := minList_le hk m hm
    have h2 : m ≤ k := hle k (minList_mem hk)
    rw [hk, le_antisymm h1 h2]

/-! Helper lemmas about `idxminScore`. -/

theorem idxmin_cons {x : Record} {xs : List Record} {b : Record}
    (hb : idxminScore xs = some b) :
    idxminScore (x :: xs) = if x.score ≤ b.score then some x else some b := by
  rw [idxminScore, hb]

theorem idxmin_eq_none {l : List Record} : idxminScore l = none ↔ l = [] := by
  cases l with
  | nil => simp [idxminScore]
  | cons x xs =>
    cases hx : idxminScore xs with
    | none => simp [idxminScore, hx]
    | some b => by_cases hc : x.score ≤ b.score <;> simp [idxminScore, hx, hc]

theorem idxmin_isSome {l : List Record} (h : l ≠ []) : ∃ r, idxminScore l = some r := by
  cases hm : idxminScore l with
  | none => exact absurd (idxmin_eq_none.mp hm) h
  | some k => exact ⟨k, rfl⟩

theorem idxmin_mem : ∀ {l : List Record} {r : Record}, idxminScore l = some r → r ∈ l := by
  intro l
  induction l with
  | nil => intro r h; simp [idxminScore] at h
  | cons x xs ih =>
    intro r h
    cases hx : idxminScore xs with
    | none =>
      rw [idxminScore, hx] at h
      simp only [Option.some.injEq] at h
      simp [← h]
    | some b =>
      rw [idxminScore, hx] at h
      by_cases hc : x.score ≤ b.score
      · simp only [if_pos hc, Option.some.injEq] at h
        simp [← h]
      · simp only [if_neg hc, Option.some.injEq] at h
        exact h ▸ List.mem_cons_of_mem x (ih hx)

theorem idxmin_le : ∀ {l : List Record} {r : Record}, idxminScore l = some r →
    ∀ y ∈ l, r.score ≤ y.score := by
  intro l
  induction l with
  | nil => intro r h; simp [idxminScore] at h
  | cons x xs ih =>
    intro r h y hy
    cases hx : idxminScore xs with
    | none =>
      have hxs : xs = [] := idxmin_eq_none.mp hx
      subst hxs
      simp only [idxminScore, Option.some.injEq] at h
      have hyx : y = x := List.mem_singleton.mp hy
      rw [hyx, ← h]
    | some b =>
      rw [idxminScore, hx] at h
      rcases List.mem_cons.mp hy with hyx | hmem
      · by_cases hc : x.score ≤ b.score
        · simp only [if_pos hc, Option.some.injEq] at h
          rw [hyx, ← h]
        · simp only [if_neg hc, Option.some.injEq] at h
          rw [hyx, ← h]; omega
      · by_cases hc : x.score ≤ b.score
        · simp only [if_pos hc, Option.some.injEq] at h
          calc r.score = x.score := by rw [← h]
            _ ≤ b.score := hc
            _ ≤ y.score := ih hx y hmem
        · simp only [if_neg hc, Option.some.injEq] at h
          exact h ▸ ih hx y hmem

/-- The selection `idxminScore` is the first record, in input order, attaining the
minimum score: it agrees with `find?` at the minimum value. -/
theorem idxmin_eq_find : ∀ {l : List Record} {m : Int},
    minList (l.map Record.score) = some m →
    idxminScore l = l.find? (fun r => decide (r.score = m)) := by
  intro l
  induction l with
  | nil => intro m h; simp [minList] at h
  | cons x xs ih =>
    intro m h
    cases hx : minList (xs.map Record.score) with
    | none =>
      have hxs : xs = [] := List.map_eq_nil_iff.mp (minList_eq_none.mp hx)
      subst hxs
      simp only [List.map_cons, List.map_nil, minList, Option.some.injEq] at h
      simp [idxminScore, List.find?, h]
    | some k =>
      have hxs : xs ≠ [] := by
        intro hc; subst hc; simp [minList] at hx
      obtain ⟨b, hb⟩ := idxmin_isSome hxs
      have hbk : b.score = k := by
        have h1 : k ≤ b.score := by
          have hbmem : b.score ∈ xs.map Record.score := List.mem_map_of_mem Record.score (idxmin_mem hb)
          exact minList_le hx _ hbmem
        have h2 : b.score ≤ k := by
          obtain ⟨y, hy, hyk⟩ := List.mem_map.mp (minList_mem hx)
          calc b.score ≤ y.score := idxmin_le hb y hy
            _ = k := hyk
        omega
      rw [List.map_cons, minList, hx] at h
      simp only [Option.some.injEq] at h
      rw [idxmin_cons hb]
      by_cases hc : x.score ≤ k
      · have hm : m = x.score := by rw [← h, min_eq_left hc]
        rw [if_pos (by rw [hbk]; exact hc)]
        rw [List.find?_cons_of_pos _ (by simp [hm])]
      · have hm : m = k := by rw [← h, min_eq_right (le_of_not_le hc)]
        rw [if_neg (by rw [hbk]; exact hc)]
        rw [List.find?_cons_of_neg _ (by simp; omega)]
        rw [← ih (hm ▸ hx), hb]

/-! Helper lemmas about `dedupBy` and the latest-per-equipment views. -/

theorem tsLe_refl (a : Timestamp) : tsLe a a :=
  Or.inr ⟨rfl, le_refl _⟩

theorem dedupBy_subset : ∀ {l : List Record} {seen : List String} {x : Record},
    x ∈ dedupBy l seen → x ∈ l := by
  intro l
  induction l with
  | nil => intro seen x h; simp [dedupBy] at h
  | cons r rs ih =>
    intro seen x h
    rw [dedupBy] at h
    by_cases hc : r.equip ∈ seen
    · rw [if_pos hc] at h
      exact List.mem_cons_of_mem r (ih h)
    · rw [if_neg hc] at h
      rcases List.mem_cons.mp h with hx | hx
      · subst hx; exact List.mem_cons_self x rs
      · exact List.mem_cons_of_mem r (ih hx)

theorem dedupBy_not_seen : ∀ {l : List Record} {seen : List String} {x : Record},
    x ∈ dedupBy l seen → x.equip ∉ seen := by
  intro l
  induction l with
  | nil => intro seen x h; simp [dedupBy] at h
  | cons r rs ih =>
    intro seen x h
    rw [dedupBy] at h
    by_cases hc : r.equip ∈ seen
    · rw [if_pos hc] at h
      exact ih h
    · rw [if_neg hc] at h
      rcases List.mem_cons.mp h with hx | hx
      · subst hx; exact hc
      · intro hmem
        exact ih hx (List.mem_cons_of_mem _ hmem)

theorem dedupBy_max : ∀ {l : List Record}, l.Sorted recGe →
    ∀ {seen : List String} {x y : Record},
    x ∈ dedupBy l seen → y ∈ l → y.equip = x.equip → tsLe y.date x.date := by
  intro l
  induction l with
  | nil => intro _ seen x y h; simp [dedupBy] at h
  | cons r rs ih =>
    intro hs seen x y hx hy he
    obtain ⟨hhead, htail⟩ := List.sorted_cons.mp hs
    rw [dedupBy] at hx
    by_cases hc : r.equip ∈ seen
    · rw [if_pos hc] at hx
      rcases List.mem_cons.mp hy with hyr | hyr
      · exfalso
        apply dedupBy_not_seen hx
        rw [← he, hyr]
        exact hc
      · exact ih htail hx hyr he
    · rw [if_neg hc] at hx
      rcases List.mem_cons.mp hx with hxr | hxr
      · subst hxr
        rcases List.mem_cons.mp hy with hyr | hyr
        · rw [hyr]; exact tsLe_refl _
        · exact hhead y hyr
      · rcases List.mem_cons.mp hy with hyr | hyr
        · exfalso
          apply dedupBy_not_seen hxr
          rw [← he, hyr]
          exact List.mem_cons_self _ _
        · exact ih htail hxr hyr he

theorem dedupBy_exists : ∀ {l : List Record} {seen : List String} {y : Record},
    y ∈ l → y.equip ∉ seen → ∃ x ∈ dedupBy l seen, x.equip = y.equip := by
  intro l
  induction l with
  | nil => intro seen y h; simp at h
  | cons r rs ih =>
    intro seen y hy hseen
    rw [dedupBy]
    by_cases hc : r.equip ∈ seen
    · rw [if_pos hc]
      rcases List.mem_cons.mp hy with hyr | hyr
      · subst hyr; exact absurd hc hseen
      · exact ih hyr hseen
    · rw [if_neg hc]
      by_cases he : y.equip = r.equip
      · exact ⟨r, List.mem_cons_self r _, he.symm⟩
      · rcases List.mem_cons.mp hy with hyr | hyr
        · subst hyr; exact absurd rfl he
        · obtain ⟨x, hx1, hx2⟩ :=
            ih hyr (fun hmem => (List.mem_cons.mp hmem).elim he hseen)
          exact ⟨x, List.mem_cons_of_mem r hx1, hx2⟩

theorem dedupBy_nodup : ∀ (l : List Record) (seen : List String),
    (dedupBy l seen).Pairwise (fun a b => a.equip ≠ b.equip) := by
  intro l
  induction l with
  | nil => intro seen; simp [dedupBy]
  | cons r rs ih =>
    intro seen
    rw [dedupBy]
    by_cases hc : r.equip ∈ seen
    · rw [if_pos hc]; exact ih seen
    · rw [if_neg hc]
      refine List.pairwise_cons.mpr ⟨?_, ih _⟩
      intro b hb hbe
      exact dedupBy_not_seen hb (hbe ▸ List.mem_cons_self _ _)

theorem detailView_sorted (l : List Record) (s : String) :
    (List.insertionSort recGe (systemFilter l s)).Sorted recGe :=
  List.sorted_insertionSort recGe _

theorem pieSource_sorted (l : List Record) :
    ((List.insertionSort recLe l).reverse).Sorted recGe :=
  List.pairwise_reverse.mpr (List.sorted_insertionSort recLe l)

/-! Membership descriptions of the grouped score lists. -/

theorem filter_comm_aux {α : Type} (p q : α → Bool) (l : List α) :
    (l.filter p).filter q = (l.filter q).filter p := by
  induction l with
  | nil => rfl
  | cons x xs ih =>
    by_cases hp : p x <;> by_cases hq : q x <;>
      simp [List.filter_cons, hp, hq, ih]

theorem mem_scores_area {l : List Record} {a : String} {v : Int} :
    v ∈ (l.filter (fun r => decide (r.area = a))).map Record.score ↔
    ∃ r, r ∈ l ∧ r.area = a ∧ r.score = v := by
  simp only [List.mem_map, List.mem_filter, decide_eq_true_eq]
  constructor
  · rintro ⟨r, ⟨hr, ha⟩, hs⟩
    exact ⟨r, hr, ha, hs⟩
  · rintro ⟨r, hr, ha, hs⟩
    exact ⟨r, ⟨hr, ha⟩, hs⟩

theorem mem_scores_pair {l : List Record} {a s : String} {v : Int} :
    v ∈ (l.filter (fun r => decide (r.area = a ∧ r.system = s))).map Record.score ↔
    ∃ r, r ∈ l ∧ r.area = a ∧ r.system = s ∧ r.score = v := by
  simp only [List.mem_map, List.mem_filter, decide_eq_true_eq]
  constructor
  · rintro ⟨r, ⟨hr, ha, hs2⟩, hs⟩
    exact ⟨r, hr, ha, hs2, hs⟩
  · rintro ⟨r, hr, ha, hs2, hs⟩
    exact ⟨r, ⟨hr, ⟨ha, hs2⟩⟩, hs⟩

/-- Collapsing the two-level grouping: the minimum of an area's
per-system minima equals the plain minimum over all of that area's
records. -/
theorem areaScore_eq_flat (l : List Record) (a : String) :
    areaScore l a = minList ((l.filter (fun r => decide (r.area = a))).map Record.score) := by
  cases hflat : minList ((l.filter (fun r => decide (r.area = a))).map Record.score) with
  | none =>
    have hnil : l.filter (fun r => decide (r.area = a)) = [] :=
      List.map_eq_nil_iff.mp (minList_eq_none.mp hflat)
    unfold areaScore areaSystems
    rw [hnil]
    simp [minList]
  | some m =>
    obtain ⟨hm_mem, hm_le⟩ := minList_eq_some_iff.mp hflat
    apply minList_eq_some_iff.mpr
    constructor
    · obtain ⟨r, hr, hra, hrs⟩ := mem_scores_area.mp hm_mem
      refine List.mem_filterMap.mpr ⟨r.system, ?_, ?_⟩
      · unfold areaSystems
        rw [List.mem_dedup]
        exact List.mem_map_of_mem Record.system
          (List.mem_filter.mpr ⟨hr, by simp [hra]⟩)
      · apply minList_eq_some_iff.mpr
        constructor
        · exact mem_scores_pair.mpr ⟨r, hr, hra, rfl, hrs⟩
        · intro x hx
          obtain ⟨y, hy, hya, _, hyx⟩ := mem_scores_pair.mp hx
          exact hm_le x (mem_scores_area.mpr ⟨y, hy, hya, hyx⟩)
    · intro x hx
      obtain ⟨s, _, hs_eq⟩ := List.mem_filterMap.mp hx
      obtain ⟨y, hy, hya, _, hyx⟩ := mem_scores_pair.mp (minList_mem hs_eq)
      exact hm_le x (mem_scores_area.mpr ⟨y, hy, hya, hyx⟩)

theorem codeCoerceScore_of_num {c : Cell} {q : ℚ} (h : toNumeric c = some q) :
    codeCoerceScore c =
      if truncInt q = 1 ∨ truncInt q = 2 ∨ truncInt q = 3 then some (truncInt q) else none := by
  unfold codeCoerceScore
  rw [h]

theorem codeCoerceScore_of_nan {c : Cell} (h : toNumeric c = none) :
    codeCoerceScore c = none := by
  unfold codeCoerceScore
  rw [h]

/-! Claim theorems. -/

/-- Claim C2: for every filtered record set, the system-level score of an
(area, system) pair is the minimum equip_score over the pair's records
(`systemScore`, line 107), the area-level score is the minimum of its
systems' scores (`areaScore`, line 108) — which collapses to the minimum
over all of the area's records — and aggregation is monotone: the area
score never exceeds (is never better than) its worst system's score, and
the system score never exceeds any of its records' scores. -/
theorem c2_aggregation_monotone (l : List Record) (r : Record) (hr : r ∈ l) :
    areaScore l r.area =
      minList ((l.filter (fun x => decide (x.area = r.area))).map Record.score) ∧
    ∃ m n, systemScore l r.area r.system = some m ∧ areaScore l r.area = some n ∧
      n ≤ m ∧ m ≤ r.score := by
  refine ⟨areaScore_eq_flat l r.area, ?_⟩
  have hmem : r.score ∈
      (l.filter (fun x => decide (x.area = r.area ∧ x.system = r.system))).map Record.score :=
    mem_scores_pair.mpr ⟨r, hr, rfl, rfl, rfl⟩
  obtain ⟨m, hm⟩ := minList_isSome (List.ne_nil_of_mem hmem)
  have hm_le : m ≤ r.score := minList_le hm _ hmem
  have hsys_mem : r.system ∈ areaSystems l r.area := by
    unfold areaSystems
    rw [List.mem_dedup]
    exact List.mem_map_of_mem Record.system (List.mem_filter.mpr ⟨hr, by simp⟩)
  have hmm : m ∈ (areaSystems l r.area).filterMap (fun s => systemScore l r.area s) :=
    List.mem_filterMap.mpr ⟨r.system, hsys_mem, hm⟩
  obtain ⟨n, hn⟩ := minList_isSome (List.ne_nil_of_mem hmm)
  exact ⟨m, n, hm, hn, minList_le hn m hmm, hm_le⟩

/-- Witness for C2 on a concrete two-record set: one system holding a
score-1 record and another holding a score-3 record. -/
theorem c2_aggregation_monotone_witness :
    recS1Bad ∈ [recS1Bad, recS2Good] ∧
    (areaScore [recS1Bad, recS2Good] recS1Bad.area =
      minList (([recS1Bad, recS2Good].filter
        (fun x => decide (x.area = recS1Bad.area))).map Record.score) ∧
    ∃ m n, systemScore [recS1Bad, recS2Good] recS1Bad.area recS1Bad.system = some m ∧
      areaScore [recS1Bad, recS2Good] recS1Bad.area = some n ∧
      n ≤ m ∧ m ≤ recS1Bad.score) :=
  ⟨List.mem_cons_self _ _,
   c2_aggregation_monotone [recS1Bad, recS2Good] recS1Bad (List.mem_cons_self _ _)⟩

/-- Claim C7: when the cleaned dataset is nonempty but the selected date
range eliminates every record, the dashboard reaches the explicit no-data
terminal state — detected before any aggregation is computed — and the
aggregate tables of the empty filtered set are empty; no exception is
raised. -/
theorem c7_empty_filter_no_data (l : List Record) (d1 d2 : Nat)
    (hne : l ≠ []) (hempty : dateFilter l d1 d2 = []) :
    dashboard l d1 d2 = Output.noData ∧
    systemTable (dateFilter l d1 d2) = [] ∧ areaTable (dateFilter l d1 d2) = [] := by
  refine ⟨?_, ?_, ?_⟩
  · simp [dashboard, hempty, hne]
  · rw [hempty]; rfl
  · rw [hempty]; rfl

/-- Witness for C7: a one-record set filtered with a range past its date. -/
theorem c7_empty_filter_no_data_witness :
    dashboard [recS1Bad] 10 20 = Output.noData ∧
    systemTable (dateFilter [recS1Bad] 10 20) = [] ∧
    areaTable (dateFilter [recS1Bad] 10 20) = [] :=
  c7_empty_filter_no_data [recS1Bad] 10 20 (by simp) (by rfl)

/-- Claim C8: the date-range filter (inclusive on both ends, compared on
the day component) and the categorical filters compose by logical AND:
applying them in either order yields the identical record list. -/
theorem c8_filter_commute (l : List Record) (d1 d2 : Nat) (s e : String) :
    systemFilter (dateFilter l d1 d2) s = dateFilter (systemFilter l s) d1 d2 ∧
    equipFilter (dateFilter l d1 d2) e = dateFilter (equipFilter l e) d1 d2 ∧
    equipFilter (systemFilter l s) e = systemFilter (equipFilter l e) s :=
  ⟨filter_comm_aux _ _ l, filter_comm_aux _ _ l, filter_comm_aux _ _ l⟩

/-- Counterexample to claim C1 as stated: for the raw row whose VIBRATION
cell reads "green" (component score 3 under the specification's coercer)
and whose overall condition-monitoring score cell is the number 1, the
code derives equip_score 1 from the overall score cell alone; the
component minimum 3 is ignored even though a component is present. -/
theorem c1_counterexample :
    (cleanRow rowVibGreen).map Record.score ≠ rowScorerSpec rowVibGreen ∧
    (cleanRow rowVibGreen).map Record.score = some 1 ∧
    rowScorerSpec rowVibGreen = some 3 :=
  ⟨by decide, rfl, rfl⟩

/-- Claim C1 (amended): for every raw row kept by the cleaning stage, the
derived equip_score is the truncated numeric coercion of the overall
condition-monitoring score cell alone; the four component inspection
cells are never consulted — replacing them changes neither the
kept/dropped decision nor the derived score. -/
theorem c1_amended_fallback_only (r : RawRow) (rec : Record)
    (h : cleanRow r = some rec) :
    (∃ q, toNumeric r.score = some q ∧ rec.score = truncInt q) ∧
    ∀ v o t x, cleanRow (setComponents r v o t x) = some (recSetComponents rec v o t x) := by
  cases ha : r.area with
  | none => unfold cleanRow at h; rw [ha] at h; simp at h
  | some a =>
  cases hs : r.system with
  | none => unfold cleanRow at h; rw [ha, hs] at h; simp at h
  | some s =>
  cases he : r.equip with
  | none => unfold cleanRow at h; rw [ha, hs, he] at h; simp at h
  | some e =>
  cases hd : r.date with
  | none => unfold cleanRow at h; rw [ha, hs, he, hd] at h; simp at h
  | some d =>
  cases hc : codeCoerceScore r.score with
  | none => unfold cleanRow at h; rw [ha, hs, he, hd, hc] at h; simp at h
  | some v =>
    unfold cleanRow at h
    rw [ha, hs, he, hd, hc] at h
    simp only [Option.some.injEq] at h
    constructor
    · cases ht : toNumeric r.score with
      | none => rw [codeCoerceScore_of_nan ht] at hc; simp at hc
      | some q =>
        rw [codeCoerceScore_of_num ht] at hc
        by_cases hin : truncInt q = 1 ∨ truncInt q = 2 ∨ truncInt q = 3
        · rw [if_pos hin] at hc
          simp only [Option.some.injEq] at hc
          refine ⟨q, rfl, ?_⟩
          rw [← h, ← hc]
        · rw [if_neg hin] at hc
          simp at hc
    · intro v2 o t x
      simp [cleanRow, setComponents, recSetComponents, ha, hs, he, hd, hc, ← h]

/-- Witness for the amended C1: the all-components-missing row with
overall score 2 cleans to a score-2 record, and stays score 2 whatever
is written into the component cells. -/
theorem c1_amended_fallback_only_witness :
    (∃ q, toNumeric rowFallback.score = some q ∧ recFallbackClean.score = truncInt q) ∧
    ∀ v o t x, cleanRow (setComponents rowFallback v o t x) =
      some (recSetComponents recFallbackClean v o t x) :=
  c1_amended_fallback_only rowFallback recFallbackClean rfl

/-- Counterexample to claim C3 as stated: the numeric inputs 0 and 4.9
are not clamped into [1,3] — after truncation the isin([1,2,3]) filter
discards both records entirely, while the specification's coercer sends
them to 1 and 3. -/
theorem c3_counterexample :
    toNumeric rowZero.score = some 0 ∧ cleanRow rowZero = none ∧
    toNumeric rowFourNine.score = some (mkRat 49 10) ∧ cleanRow rowFourNine = none ∧
    coerceSpec rowZero.score = some 1 ∧ coerceSpec rowFourNine.score = some 3 :=
  ⟨rfl, rfl, rfl, rfl, rfl, rfl⟩

/-- Claim C3 (amended): a numeric raw value is truncated toward zero
(`astype(int)`), and the record is kept exactly when the truncated value
is 1, 2 or 3, in which case that value is the equip_score; any other
numeric input causes the record to be discarded rather than clamped. -/
theorem c3_amended_truncate_and_drop (r : RawRow) (q : ℚ) (a s e : String) (d : Timestamp)
    (ha : r.area = some a) (hs : r.system = some s) (he : r.equip = some e)
    (hd : r.date = some d) (hq : toNumeric r.score = some q) :
    ((cleanRow r).isSome = true ↔ (truncInt q = 1 ∨ truncInt q = 2 ∨ truncInt q = 3)) ∧
    ∀ rec, cleanRow r = some rec → rec.score = truncInt q := by
  have hcc : codeCoerceScore r.score =
      if truncInt q = 1 ∨ truncInt q = 2 ∨ truncInt q = 3 then some (truncInt q) else none :=
    codeCoerceScore_of_num hq
  by_cases hin : truncInt q = 1 ∨ truncInt q = 2 ∨ truncInt q = 3
  · rw [if_pos hin] at hcc
    constructor
    · simp [cleanRow, ha, hs, he, hd, hcc, hin]
    · intro rec hrec
      unfold cleanRow at hrec
      rw [ha, hs, he, hd, hcc] at hrec
      simp only [Option.some.injEq] at hrec
      rw [← hrec]
  · rw [if_neg hin] at hcc
    constructor
    · simp [cleanRow, ha, hs, he, hd, hcc, hin]
    · intro rec hrec
      unfold cleanRow at hrec
      rw [ha, hs, he, hd, hcc] at hrec
      simp at hrec

/-- Witness for the amended C3 at the numeric input 2. -/
theorem c3_amended_truncate_and_drop_witness :
    ((cleanRow rowFallback).isSome = true ↔
      (truncInt 2 = 1 ∨ truncInt 2 = 2 ∨ truncInt 2 = 3)) ∧
    ∀ rec, cleanRow rowFallback = some rec → rec.score = truncInt 2 :=
  c3_amended_truncate_and_drop rowFallback 2 "A" "S" "E" ⟨3, 0⟩ rfl rfl rfl rfl rfl

/-- Counterexample to claim C4 as stated: the non-numeric value "green"
is never matched against a label table — `pd.to_numeric(errors="coerce")`
maps it to NaN and the record is dropped — although the specification's
table sends "green" to 3. -/
theorem c4_counterexample :
    toNumeric (Cell.str "green") = none ∧
    codeCoerceScore (Cell.str "green") = none ∧
    cleanRow rowGreenText = none ∧
    coerceSpec (Cell.str "green") = some 3 ∧
    codeCoerceScore (Cell.str "green") ≠ coerceSpec (Cell.str "green") :=
  ⟨rfl, rfl, rfl, rfl, by decide⟩

/-- Claim C4 (amended): a raw value that does not parse as a number is
mapped to missing with no label-table lookup and no exception, and the
cleaning stage then drops its record. -/
theorem c4_amended_nonnumeric_dropped (s : String) (r : RawRow)
    (hs : toNumeric (Cell.str s) = none) (hr : r.score = Cell.str s) :
    codeCoerceScore (Cell.str s) = none ∧ cleanRow r = none := by
  have hcc : codeCoerceScore r.score = none := by
    rw [hr]
    exact codeCoerceScore_of_nan hs
  refine ⟨codeCoerceScore_of_nan hs, ?_⟩
  unfold cleanRow
  rw [hcc]
  cases r.area <;> cases r.system <;> cases r.equip <;> cases r.date <;> rfl

/-- Witness for the amended C4 at the value "green". -/
theorem c4_amended_nonnumeric_dropped_witness :
    codeCoerceScore (Cell.str "green") = none ∧ cleanRow rowGreenText = none :=
  c4_amended_nonnumeric_dropped "green" rowGreenText rfl rfl

/-- Counterexample to claim C6 as stated: a table missing the required
VIBRATION column is not refused — the pipeline cleans and scores its
rows normally and hands the nonempty scored record set onward. -/
theorem c6_counterexample :
    "VIBRATION" ∈ requiredCols ∧ "VIBRATION" ∉ normCols tblNoVib.cols ∧
    pipeline tblNoVib = Except.ok (cleanRows tblNoVib.rows) ∧
    cleanRows tblNoVib.rows ≠ [] :=
  ⟨by decide, by decide, rfl, by decide⟩

/-- Claim C6 (amended): only the CONDITION MONITORING SCORE column is
validated up front with a surfaced error message; missing DATE, AREA,
SYSTEM or EQUIPMENT DESCRIPTION columns abort later with unhandled
KeyErrors, and the four component inspection columns are never checked —
whenever the five consumed columns are present the pipeline cleans and
scores regardless of the component columns. -/
theorem c6_amended_only_cms_checked (t : Table) :
    ("CONDITION MONITORING SCORE" ∉ normCols t.cols →
      pipeline t = Except.error "Error: CONDITION MONITORING SCORE column not found.") ∧
    ("CONDITION MONITORING SCORE" ∈ normCols t.cols →
      "DATE" ∈ normCols t.cols → "AREA" ∈ normCols t.cols →
      "SYSTEM" ∈ normCols t.cols → "EQUIPMENT DESCRIPTION" ∈ normCols t.cols →
      pipeline t = Except.ok (cleanRows t.rows)) := by
  constructor
  · intro h
    simp only [pipeline]
    rw [if_pos h]
  · intro h1 h2 h3 h4 h5
    simp only [pipeline]
    rw [if_neg (not_not_intro h1), if_neg (not_not_intro h2),
      if_neg (by simp [h3, h4, h5])]

/-- Witness for the amended C6: the CMS-less table is refused with the
surfaced message; the full-column table is cleaned and scored. -/
theorem c6_amended_only_cms_checked_witness :
    pipeline tblNoCms = Except.error "Error: CONDITION MONITORING SCORE column not found." ∧
    pipeline tblFull = Except.ok (cleanRows tblFull.rows) :=
  ⟨(c6_amended_only_cms_checked tblNoCms).1 (by decide),
   (c6_amended_only_cms_checked tblFull).2 (by decide) (by decide) (by decide)
     (by decide) (by decide)⟩

/-- Claim C9: within each DATE group of the per-equipment trend frame,
the selection is deterministic and first-match: it equals `find?` at the
group's minimum score, i.e. it returns the record occurring first in
input order among those attaining the minimum (`Series.idxmin` returns
the first occurrence of the minimum), and that record is a member of the
group attaining the minimum. -/
theorem c9_idxmin_first_match (l : List Record) (t : Timestamp) (m : Int)
    (hm : minList ((l.filter (fun r => decide (r.date = t))).map Record.score) = some m) :
    idxminScore (l.filter (fun r => decide (r.date = t))) =
      (l.filter (fun r => decide (r.date = t))).find? (fun r => decide (r.score = m)) ∧
    ∃ k, idxminScore (l.filter (fun r => decide (r.date = t))) = some k ∧
      k ∈ l.filter (fun r => decide (r.date = t)) ∧ k.score = m := by
  refine ⟨idxmin_eq_find hm, ?_⟩
  have hne : l.filter (fun r => decide (r.date = t)) ≠ [] := by
    intro hc
    rw [hc] at hm
    simp [minList] at hm
  obtain ⟨k, hk⟩ := idxmin_isSome hne
  refine ⟨k, hk, idxmin_mem hk, ?_⟩
  have h1 : m ≤ k.score :=
    minList_le hm _ (List.mem_map_of_mem Record.score (idxmin_mem hk))
  have h2 : k.score ≤ m := by
    obtain ⟨y, hy, hyk⟩ := List.mem_map.mp (minList_mem hm)
    calc k.score ≤ y.score := idxmin_le hk y hy
      _ = m := hyk
  omega

/-- Witness for C9: three records share the timestamp (7, 09:00) with
scores 2, 1, 1; the selection is the first score-1 record in input
order. -/
theorem c9_idxmin_first_match_witness :
    (idxminScore ([recSevenCaution, recSevenWorst, recSevenWorstDup].filter
        (fun r => decide (r.date = (⟨7, 9⟩ : Timestamp)))) =
      ([recSevenCaution, recSevenWorst, recSevenWorstDup].filter
        (fun r => decide (r.date = (⟨7, 9⟩ : Timestamp)))).find?
          (fun r => decide (r.score = 1)) ∧
    ∃ k, idxminScore ([recSevenCaution, recSevenWorst, recSevenWorstDup].filter
        (fun r => decide (r.date = (⟨7, 9⟩ : Timestamp)))) = some k ∧
      k ∈ [recSevenCaution, recSevenWorst, recSevenWorstDup].filter
        (fun r => decide (r.date = (⟨7, 9⟩ : Timestamp))) ∧ k.score = 1) ∧
    idxminScore ([recSevenCaution, recSevenWorst, recSevenWorstDup].filter
        (fun r => decide (r.date = (⟨7, 9⟩ : Timestamp)))) = some recSevenWorst :=
  ⟨c9_idxmin_first_match [recSevenCaution, recSevenWorst, recSevenWorstDup] ⟨7, 9⟩ 1 rfl,
   rfl⟩

/-- Counterexample to claim C5 as stated: equipment E has two records on
calendar day 5, at 08:00 with score 2 and at 14:00 with score 1.  The
drill-down for day 5 returns the 08:00 record (score 2), not a record
attaining the day's minimum score 1, because the trend groups by the
full timestamp rather than the calendar day. -/
theorem c5_counterexample :
    trendLookup [recMorning, recAfternoon] "E" 5 = some recMorning ∧
    recMorning.score = 2 ∧
    recAfternoon ∈ [recMorning, recAfternoon] ∧ recAfternoon.equip = "E" ∧
    recAfternoon.date.day = 5 ∧ recAfternoon.score = 1 :=
  ⟨rfl, rfl, List.mem_cons_of_mem _ (List.mem_cons_self _ _), rfl, rfl, rfl⟩

theorem trend_find_aux (L : List Record) (d : Nat) (t : Timestamp) (ht : t.day = d) :
    ∀ ts : List Timestamp, (∀ t2 ∈ ts, ∃ y ∈ L, y.date = t2) → t ∈ ts →
    (∀ t2 ∈ ts, t2.day = d → t2 = t) →
    (ts.filterMap (fun t2 => idxminScore (L.filter (fun r => decide (r.date = t2))))).find?
        (fun r => decide (r.date.day = d)) =
      idxminScore (L.filter (fun r => decide (r.date = t))) := by
  intro ts
  induction ts with
  | nil => intro _ hin _; simp at hin
  | cons t2 rest ih =>
    intro hmem hin huniq
    obtain ⟨y, hy, hyd⟩ := hmem t2 (List.mem_cons_self _ _)
    have hyf : y ∈ L.filter (fun r => decide (r.date = t2)) :=
      List.mem_filter.mpr ⟨hy, by simp [hyd]⟩
    obtain ⟨k2, hk2⟩ := idxmin_isSome (List.ne_nil_of_mem hyf)
    have hk2d : k2.date = t2 := by
      have := List.mem_filter.mp (idxmin_mem hk2)
      simpa using this.2
    rw [List.filterMap_cons, hk2]
    by_cases hday : t2.day = d
    · have ht2 : t2 = t := huniq t2 (List.mem_cons_self _ _) hday
      rw [List.find?_cons_of_pos _ (by simp [hk2d, hday])]
      rw [ht2] at hk2
      rw [hk2]
    · rw [List.find?_cons_of_neg _ (by simp [hk2d, hday])]
      have hint : t ∈ rest := by
        rcases List.mem_cons.mp hin with h | h
        · exact absurd (h ▸ ht) hday
        · exact h
      exact ih (fun t3 h3 => hmem t3 (List.mem_cons_of_mem _ h3)) hint
        (fun t3 h3 => huniq t3 (List.mem_cons_of_mem _ h3))

/-- Claim C5 (amended): the per-day drill-down selection groups by the
full DATE timestamp rather than by calendar day.  Whenever all of the
equipment's records on the clicked day share one timestamp — in
particular whenever DATE values are date-only — the drill-down returns a
record of that day with the minimum equip_score, the same worst-wins
policy as aggregation; and the selection is a pure function of
(records, equipment, date), so repeated calls return the same record. -/
theorem c5_amended_worst_wins_per_timestamp (l : List Record) (e : String) (d : Nat)
    (r0 : Record) (h0 : r0 ∈ l) (he : r0.equip = e) (hd : r0.date.day = d)
    (huniq : ∀ y ∈ l, y.equip = e → y.date.day = d → y.date = r0.date) :
    ∃ k, trendLookup l e d = some k ∧ k ∈ l ∧ k.equip = e ∧ k.date.day = d ∧
      ∀ y ∈ l, y.equip = e → y.date.day = d → k.score ≤ y.score := by
  have hr0L : r0 ∈ equipFilter l e := List.mem_filter.mpr ⟨h0, by simp [he]⟩
  have hmemL : ∀ y, y ∈ equipFilter l e → y ∈ l ∧ y.equip = e := by
    intro y hy
    have h := List.mem_filter.mp hy
    exact ⟨h.1, by simpa using h.2⟩
  have ht : r0.date ∈ trendDates (equipFilter l e) := by
    unfold trendDates
    rw [List.mem_insertionSort, List.mem_dedup]
    exact List.mem_map_of_mem Record.date hr0L
  have hmem : ∀ t2 ∈ trendDates (equipFilter l e), ∃ y ∈ equipFilter l e, y.date = t2 := by
    intro t2 h2
    unfold trendDates at h2
    rw [List.mem_insertionSort, List.mem_dedup] at h2
    exact List.mem_map.mp h2
  have huniq2 : ∀ t2 ∈ trendDates (equipFilter l e), t2.day = d → t2 = r0.date := by
    intro t2 h2 hday
    obtain ⟨y, hy, hyd⟩ := hmem t2 h2
    obtain ⟨hyl, hye⟩ := hmemL y hy
    have := huniq y hyl hye (by rw [hyd]; exact hday)
    rw [← hyd, this]
  have hfind := trend_find_aux (equipFilter l e) d r0.date hd
    (trendDates (equipFilter l e)) hmem ht huniq2
  have hr0f : r0 ∈ (equipFilter l e).filter (fun r => decide (r.date = r0.date)) :=
    List.mem_filter.mpr ⟨hr0L, by simp⟩
  obtain ⟨k, hk⟩ := idxmin_isSome (List.ne_nil_of_mem hr0f)
  have hkf := List.mem_filter.mp (idxmin_mem hk)
  have hkd : k.date = r0.date := by simpa using hkf.2
  obtain ⟨hkl, hke⟩ := hmemL k hkf.1
  refine ⟨k, ?_, hkl, hke, by rw [hkd]; exact hd, ?_⟩
  · unfold trendLookup trendAgg
    rw [hfind, hk]
  · intro y hy hye hyd
    have hydate : y.date = r0.date := huniq y hy hye hyd
    have hyf : y ∈ (equipFilter l e).filter (fun r => decide (r.date = r0.date)) :=
      List.mem_filter.mpr ⟨List.mem_filter.mpr ⟨hy, by simp [hye]⟩, by simp [hydate]⟩
    exact idxmin_le hk y hyf

/-- Witness for the amended C5: two records share the timestamp
(7, 09:00) with scores 2 and 1; the drill-down for day 7 returns a
worst-score record of that day. -/
theorem c5_amended_worst_wins_per_timestamp_witness :
    ∃ k, trendLookup [recSevenCaution, recSevenWorst] "E" 7 = some k ∧
      k ∈ [recSevenCaution, recSevenWorst] ∧ k.equip = "E" ∧ k.date.day = 7 ∧
      ∀ y ∈ [recSevenCaution, recSevenWorst], y.equip = "E" → y.date.day = 7 →
        k.score ≤ y.score :=
  c5_amended_worst_wins_per_timestamp [recSevenCaution, recSevenWorst] "E" 7
    recSevenCaution (List.mem_cons_self _ _) rfl rfl (by decide)

/-- Claim C10: both the equipment detail table for a selected system
(sort by DATE descending, keep the first row per equipment) and the pie
source (sort by DATE ascending, keep the last row per equipment)
represent every equipment by exactly one of its own records carrying its
maximal DATE within the filtered set — latest date wins, regardless of
score — and no equipment appears twice. -/
theorem c10_latest_per_equipment (l : List Record) (s : String) (r : Record) (hr : r ∈ l) :
    (r.system = s → ∃ k, k ∈ detailView l s ∧ k ∈ l ∧ k.system = s ∧
      k.equip = r.equip ∧ tsLe r.date k.date) ∧
    (∃ k, k ∈ latestForPie l ∧ k ∈ l ∧ k.equip = r.equip ∧ tsLe r.date k.date) ∧
    (detailView l s).Pairwise (fun a b => a.equip ≠ b.equip) ∧
    (latestForPie l).Pairwise (fun a b => a.equip ≠ b.equip) := by
  refine ⟨?_, ?_, dedupBy_nodup _ _, dedupBy_nodup _ _⟩
  · intro hs
    have hrf : r ∈ systemFilter l s := List.mem_filter.mpr ⟨hr, by simp [hs]⟩
    have hrL : r ∈ List.insertionSort recGe (systemFilter l s) :=
      (List.mem_insertionSort recGe).mpr hrf
    obtain ⟨k, hk, hke⟩ := dedupBy_exists hrL (List.not_mem_nil _)
    have hkL := dedupBy_subset hk
    have hkf := List.mem_filter.mp ((List.mem_insertionSort recGe).mp hkL)
    refine ⟨k, hk, hkf.1, by simpa using hkf.2, hke, ?_⟩
    exact dedupBy_max (detailView_sorted l s) hk hrL hke.symm
  · have hrL : r ∈ (List.insertionSort recLe l).reverse := by
      rw [List.mem_reverse]
      exact (List.mem_insertionSort recLe).mpr hr
    obtain ⟨k, hk, hke⟩ := dedupBy_exists hrL (List.not_mem_nil _)
    have hkL := dedupBy_subset hk
    have hkl : k ∈ l := by
      rw [List.mem_reverse] at hkL
      exact (List.mem_insertionSort recLe).mp hkL
    refine ⟨k, hk, hkl, hke, ?_⟩
    exact dedupBy_max (pieSource_sorted l) hk hrL hke.symm

/-- Witness for C10: equipment E1 has an early score-1 record and a late
score-3 record; both views keep a record at the late date (and, as the
appended equations check, exactly the late good record, not the worst
one). -/
theorem c10_latest_per_equipment_witness :
    ((recEarlyBad.system = "S1" → ∃ k, k ∈ detailView [recEarlyBad, recLateGood] "S1" ∧
      k ∈ [recEarlyBad, recLateGood] ∧ k.system = "S1" ∧
      k.equip = recEarlyBad.equip ∧ tsLe recEarlyBad.date k.date) ∧
    (∃ k, k ∈ latestForPie [recEarlyBad, recLateGood] ∧ k ∈ [recEarlyBad, recLateGood] ∧
      k.equip = recEarlyBad.equip ∧ tsLe recEarlyBad.date k.date) ∧
    (detailView [recEarlyBad, recLateGood] "S1").Pairwise (fun a b => a.equip ≠ b.equip) ∧
    (latestForPie [recEarlyBad, recLateGood]).Pairwise (fun a b => a.equip ≠ b.equip)) ∧
    detailView [recEarlyBad, recLateGood] "S1" = [recLateGood] ∧
    latestForPie [recEarlyBad, recLateGood] = [recLateGood] :=
  ⟨c10_latest_per_equipment [recEarlyBad, recLateGood] "S1" recEarlyBad
    (List.mem_cons_self _ _), rfl, rfl⟩

end Scoreboard
